import Mathlib

/-!
# Verification of the SFrame/MLS webapp crypto bridge

A shallow embedding, in Lean 4, of the key-schedule and session-bridge code
of the repository (`src/webapp/hkdf.js`, `src/webapp/mls_sframe_session.js`,
and the relevant parts of `src/webapp/appRoom.js`), together with theorems
settling the specification claims about that code.

Modelling conventions:
* Byte sequences (`Uint8Array`) are `List Nat`, each element `< 256`.
* JavaScript numbers are modelled as exact integers (`Nat`/`Int`); the
  `>>> 0` coercion (ToUint32) is `% 2 ^ 32`.  The modelling is exact on the
  integer ranges the functions are used with; where double-precision
  rounding could diverge (results at or above `2 ^ 53`) the theorems carry
  the corresponding bound or a comment notes the caveat.
* JavaScript strings are lists of characters (`List Char`).
* Fallible operations (`throw`) return `Except String` or `Option`.
-/

/-- The SHA-256 round constants `K` (from `src/webapp/hkdf.js`, lines 28-45;
the source's hexadecimal constants written as decimal numerals). -/
def shaK : List Nat :=
  [1116352408, 1899447441, 3049323471, 3921009573,
   961987163, 1508970993, 2453635748, 2870763221,
   3624381080, 310598401, 607225278, 1426881987,
   1925078388, 2162078206, 2614888103, 3248222580,
   3835390401, 4022224774, 264347078, 604807628,
   770255983, 1249150122, 1555081692, 1996064986,
   2554220882, 2821834349, 2952996808, 3210313671,
   3336571891, 3584528711, 113926993, 338241895,
   666307205, 773529912, 1294757372, 1396182291,
   1695183700, 1986661051, 2177026350, 2456956037,
   2730485921, 2820302411, 3259730800, 3345764771,
   3516065817, 3600352804, 4094571909, 275423344,
   430227734, 506948616, 659060556, 883997877,
   958139571, 1322822218, 1537002063, 1747873779,
   1955562222, 2024104815, 2227730452, 2361852424,
   2428436474, 2756734187, 3204031479, 3329325298]

/-- 32-bit right rotation of a value `x < 2 ^ 32`: `rotr(x, n)` of the source
(`(x >>> n) | (x << (32 - n))`); the two operands occupy disjoint bit
positions, so the bitwise or is faithfully rendered with `|||`. -/
def rotr (x n : Nat) : Nat :=
  (x >>> n) ||| ((x <<< (32 - n)) % 4294967296)

/-- `~e & g` of the source: JavaScript `~` on an unsigned 32-bit pattern
`e < 2 ^ 32` yields the pattern `2 ^ 32 - 1 - e`. -/
def not32 (e : Nat) : Nat := 4294967295 - e

/-- A big-endian 32-bit word from four bytes, as the message-schedule setup
`(b0 << 24) | (b1 << 16) | (b2 << 8) | b3` stored into a `Uint32Array`. -/
def wordOfBytes (b0 b1 b2 b3 : Nat) : Nat :=
  b0 * 16777216 + b1 * 65536 + b2 * 256 + b3

/-- The four big-endian bytes of a 32-bit word (`DataView.setUint32`). -/
def wordBytes (x : Nat) : List Nat :=
  [x / 16777216 % 256, x / 65536 % 256, x / 256 % 256, x % 256]

/-- SHA-256 padding (`src/webapp/hkdf.js`, lines 56-68): append `0x80`, zero
bytes until the length is 56 mod 64, then the bit length as 8 big-endian
bytes. -/
def shaPad (m : List Nat) : List Nat :=
  let len := m.length
  let bitLen := len * 8
  let k := (120 - (len + 1) % 64) % 64
  m ++ [0x80] ++ List.replicate k 0 ++
    [bitLen / 72057594037927936 % 256, bitLen / 281474976710656 % 256,
     bitLen / 1099511627776 % 256, bitLen / 4294967296 % 256,
     bitLen / 16777216 % 256, bitLen / 65536 % 256,
     bitLen / 256 % 256, bitLen % 256]

/-- The first 16 words of the message schedule, read big-endian from one
64-byte chunk. -/
def initialW (chunk : List Nat) : List Nat :=
  (List.range 16).map fun t =>
    wordOfBytes (chunk.getD (t * 4) 0) (chunk.getD (t * 4 + 1) 0)
      (chunk.getD (t * 4 + 2) 0) (chunk.getD (t * 4 + 3) 0)

/-- Message-schedule extension (`w[16..63]` of the source): repeatedly append
`(w[t-16] + s0 + w[t-7] + s1) >>> 0` where `t` is the current length. -/
def extendW (w : List Nat) : Nat → List Nat
  | 0 => w
  | fuel + 1 =>
    let t := w.length
    let w15 := w.getD (t - 15) 0
    let w2 := w.getD (t - 2) 0
    let s0 := (rotr w15 7) ^^^ (rotr w15 18) ^^^ (w15 >>> 3)
    let s1 := (rotr w2 17) ^^^ (rotr w2 19) ^^^ (w2 >>> 10)
    extendW (w ++ [(w.getD (t - 16) 0 + s0 + w.getD (t - 7) 0 + s1) % 4294967296]) fuel

/-- The eight working variables `a`-`h` of the compression loop, and the hash
state `h0`-`h7`. -/
structure ShaState where
  a : Nat
  b : Nat
  c : Nat
  d : Nat
  e : Nat
  f : Nat
  g : Nat
  h : Nat

/-- One compression round `t` (`src/webapp/hkdf.js`, lines 97-113). -/
def shaRound (w : List Nat) (t : Nat) (s : ShaState) : ShaState :=
  let S1 := (rotr s.e 6) ^^^ (rotr s.e 11) ^^^ (rotr s.e 25)
  let ch := (s.e &&& s.f) ^^^ ((not32 s.e) &&& s.g)
  let temp1 := (s.h + S1 + ch + shaK.getD t 0 + w.getD t 0) % 4294967296
  let S0 := (rotr s.a 2) ^^^ (rotr s.a 13) ^^^ (rotr s.a 22)
  let maj := (s.a &&& s.b) ^^^ (s.a &&& s.c) ^^^ (s.b &&& s.c)
  let temp2 := (S0 + maj) % 4294967296
  { a := (temp1 + temp2) % 4294967296, b := s.a, c := s.b, d := s.c,
    e := (s.d + temp1) % 4294967296, f := s.e, g := s.f, h := s.g }

/-- The 64 compression rounds, `t` counting up with structural fuel. -/
def shaRounds (w : List Nat) (t : Nat) (s : ShaState) : Nat → ShaState
  | 0 => s
  | fuel + 1 => shaRounds w (t + 1) (shaRound w t s) fuel

/-- Process one 64-byte chunk: run the schedule and rounds, then add the
working variables back into the state mod `2 ^ 32`. -/
def shaChunk (hs : ShaState) (chunk : List Nat) : ShaState :=
  let w := extendW (initialW chunk) 48
  let s := shaRounds w 0 hs 64
  { a := (hs.a + s.a) % 4294967296, b := (hs.b + s.b) % 4294967296,
    c := (hs.c + s.c) % 4294967296, d := (hs.d + s.d) % 4294967296,
    e := (hs.e + s.e) % 4294967296, f := (hs.f + s.f) % 4294967296,
    g := (hs.g + s.g) % 4294967296, h := (hs.h + s.h) % 4294967296 }

/-- Split a byte list into 64-byte chunks (the `for (i = 0; i < padded.length;
i += 64)` loop); fuel bounds the recursion structurally. -/
def chunks64 : Nat → List Nat → List (List Nat)
  | 0, _ => []
  | fuel + 1, l => if l.isEmpty then [] else l.take 64 :: chunks64 fuel (l.drop 64)

/-- The SHA-256 initial hash values (`src/webapp/hkdf.js`, lines 71-74),
written as decimal numerals. -/
def shaInit : ShaState :=
  { a := 1779033703, b := 3144134277, c := 1013904242, d := 2773480762,
    e := 1359893119, f := 2600822924, g := 528734635, h := 1541459225 }

/-- The final state serialised as 32 big-endian bytes. -/
def stateBytes (s : ShaState) : List Nat :=
  wordBytes s.a ++ wordBytes s.b ++ wordBytes s.c ++ wordBytes s.d ++
  wordBytes s.e ++ wordBytes s.f ++ wordBytes s.g ++ wordBytes s.h

/-- `sha256` of `src/webapp/hkdf.js` (lines 51-136): pad, fold the chunks,
serialise. -/
def sha256 (m : List Nat) : List Nat :=
  let padded := shaPad m
  stateBytes ((chunks64 padded.length padded).foldl shaChunk shaInit)

/-- `hmacSha256` of `src/webapp/hkdf.js` (lines 142-170): keys longer than the
64-byte block are hashed; the key is zero-padded to 64 bytes; inner and outer
pads are the byte-wise xors with `0x36` and `0x5c`. -/
def hmacSha256 (key data : List Nat) : List Nat :=
  let k := if key.length > 64 then sha256 key else key
  let block := k ++ List.replicate (64 - k.length) 0
  let oKeyPad := block.map (fun b => b ^^^ 0x5c)
  let iKeyPad := block.map (fun b => b ^^^ 0x36)
  sha256 (oKeyPad ++ sha256 (iKeyPad ++ data))

/-- UTF-8 encoding of one code point (the `TextEncoder` used by `utf8Encode`). -/
def utf8Bytes (n : Nat) : List Nat :=
  if n < 128 then [n]
  else if n < 2048 then [192 + n / 64, 128 + n % 64]
  else if n < 65536 then [224 + n / 4096, 128 + n / 64 % 64, 128 + n % 64]
  else [240 + n / 262144, 128 + n / 4096 % 64, 128 + n / 64 % 64, 128 + n % 64]

/-- `utf8Encode` of `src/webapp/hkdf.js` (line 20): a string (list of
characters) to its UTF-8 bytes. -/
def utf8Encode (s : List Char) : List Nat :=
  s.flatMap fun c => utf8Bytes c.toNat

/-- The HKDF-Expand loop of `src/webapp/hkdf.js` (lines 192-204): block `i`
is `HMAC(prk, T(i-1) ‖ info ‖ i)`; the counter byte is written into a
`Uint8Array`, hence taken mod 256.  The fuel counts the remaining blocks. -/
def hkdfLoop (prk info tPrev : List Nat) (i : Nat) : Nat → List Nat
  | 0 => []
  | fuel + 1 =>
    let t := hmacSha256 prk (tPrev ++ info ++ [i % 256])
    t ++ hkdfLoop prk info t (i + 1) fuel

/-- `hkdf` of `src/webapp/hkdf.js` (lines 176-207): `length >>> 0` is the
mod-`2 ^ 32` reduction; Extract uses the all-zero 32-byte salt; the output
buffer of `L` bytes is the block concatenation truncated to `L`. -/
def hkdf (ikm : List Nat) (label : List Char) (length : Nat) : List Nat :=
  let info := utf8Encode label
  let L := length % 4294967296
  let zeroSalt := List.replicate 32 0
  let prk := hmacSha256 zeroSalt ikm
  let nBlocks := (L + 31) / 32
  (hkdfLoop prk info [] 1 nBlocks).take L

/-- HKDF-SHA-256 per RFC 5869, stated from the RFC's words for comparison
with the source's `hkdf`: `T(0)` is empty and
`T(i) = HMAC-Hash(PRK, T(i-1) ‖ info ‖ octet(i))`. -/
def hkdfT (prk info : List Nat) : Nat → List Nat
  | 0 => []
  | i + 1 => hmacSha256 prk (hkdfT prk info i ++ info ++ [i + 1])

/-- RFC 5869 HKDF-Expand: `OKM = first L octets of T(1) ‖ T(2) ‖ … ‖ T(N)`
with `N = ceil(L / HashLen)`. -/
def hkdfExpandRfc (prk info : List Nat) (L : Nat) : List Nat :=
  (((List.range ((L + 31) / 32)).flatMap fun j => hkdfT prk info (j + 1)).take L)

/-- RFC 5869 HKDF: `PRK = HMAC-Hash(salt, IKM)` then Expand.  (Defined for
`L ≤ 255 · HashLen`, as the RFC requires.) -/
def hkdfRfc5869 (salt ikm info : List Nat) (L : Nat) : List Nat :=
  hkdfExpandRfc (hmacSha256 salt ikm) info L

/-! ## mls_sframe_session.js — key derivation, KIDs, identity helpers -/

/-- Decimal digit character for `d < 10` (JavaScript number-to-string on a
small natural produces its decimal digits). -/
def decDigitChar (d : Nat) : Char :=
  match d with
  | 0 => '0' | 1 => '1' | 2 => '2' | 3 => '3' | 4 => '4'
  | 5 => '5' | 6 => '6' | 7 => '7' | 8 => '8' | 9 => '9'
  | _ => '0'

/-- The decimal rendering of a natural number, as JavaScript string
interpolation produces for a non-negative integer value. -/
def natToDecChars (n : Nat) : List Char :=
  if n = 0 then ['0']
  else ((Nat.digits 10 n).map decDigitChar).reverse

/-- `labelForSender` of `src/webapp/mls_sframe_session.js` (lines 186-188):
the template string `sframe/sender/${senderIndex}`. -/
def labelForSender (senderIndex : Nat) : List Char :=
  "sframe/sender/".toList ++ natToDecChars senderIndex

/-- `deriveTxKey` of `src/webapp/mls_sframe_session.js` (lines 191-195); the
`Output.mls` logging has no effect on the returned value. -/
def deriveTxKey (master : List Nat) (senderIndex : Nat) : List Nat :=
  hkdf master (labelForSender senderIndex) 32

/-- `deriveRxKey` of `src/webapp/mls_sframe_session.js` (lines 198-202). -/
def deriveRxKey (master : List Nat) (remoteSenderIndex : Nat) : List Nat :=
  hkdf master (labelForSender remoteSenderIndex) 32

/-- `computeKid` of `src/webapp/mls_sframe_session.js` (lines 210-219):
`Number(x) >>> 0` is the mod-`2 ^ 32` reduction of each argument, then
`e * 1e9 + r * 1e4 + s * 10`.  The source computes this in IEEE-754 doubles;
here it is exact integer arithmetic.  The two agree exactly when
`e' * 1e9 + r' * 1e4 + s' * 10 + 1 < 2 ^ 53` (with `e'`, `r'`, `s'` the
reduced arguments): every intermediate product and partial sum is then an
integer below `2 ^ 53`, hence exactly representable and exactly computed.
Above `2 ^ 53` the double computation rounds and this model diverges from
the source, so the theorems about concrete KID values carry that bound as a
hypothesis.  (`computeKid_mod_2pow32` needs no such bound: both of its sides
run the identical arithmetic on identical reduced inputs.) -/
def computeKid (epoch roomId senderIndex : Nat) : Nat :=
  let e := epoch % 4294967296
  let r := roomId % 4294967296
  let s := senderIndex % 4294967296
  e * 1000000000 + r * 10000 + s * 10

/-- The video KID of a sender: `kidVideo = kidAudio + 1`, as computed at the
call sites in `src/webapp/appRoom.js` (lines 1794, 1814, 2423). -/
def kidVideoOf (epoch roomId senderIndex : Nat) : Nat :=
  computeKid epoch roomId senderIndex + 1

/-- `attachIndexToIdentity` of `src/webapp/mls_sframe_session.js` (lines
222-224): the template string `${name}#${senderIndex}`. -/
def attachIndexToIdentity (name : List Char) (senderIndex : Nat) : List Char :=
  name ++ '#' :: natToDecChars senderIndex

/-! ### JavaScript `Number(string)` (ToNumber on strings)

`parseIdentityWithIndex` calls `Number(indexStr)` and tests
`Number.isFinite`.  The functions below embed the ECMA-262
StringNumericLiteral grammar: surrounding white space is ignored, the empty
string is `0`, `0x`/`0o`/`0b` prefix non-decimal integers, and a decimal
literal has optional sign, digits with an optional fraction dot, and an
optional exponent.  Values are exact rationals; `none` means the conversion
is not a finite number (`NaN`, or an `Infinity` literal).  Rounding of the
exact value to a double (and overflow of astronomically large literals to
`Infinity`) is not modelled. -/

/-- ECMA-262 StrWhiteSpaceChar (the code points JavaScript trims). -/
def isStrWhite (c : Char) : Bool :=
  c.toNat = 9 || c.toNat = 10 || c.toNat = 11 || c.toNat = 12 ||
  c.toNat = 13 || c.toNat = 32 || c.toNat = 160 || c.toNat = 5760 ||
  (8192 ≤ c.toNat && c.toNat ≤ 8202) || c.toNat = 8232 || c.toNat = 8233 ||
  c.toNat = 8239 || c.toNat = 8287 || c.toNat = 12288 || c.toNat = 65279

/-- Strip leading and trailing StrWhiteSpace. -/
def trimWS (l : List Char) : List Char :=
  ((l.dropWhile isStrWhite).reverse.dropWhile isStrWhite).reverse

/-- A decimal digit `0`-`9`. -/
def isDigitChar (c : Char) : Bool :=
  48 ≤ c.toNat && c.toNat ≤ 57

/-- The value of a big-endian decimal digit string (each char `0`-`9`). -/
def digitsVal (l : List Char) : Nat :=
  l.foldl (fun a c => 10 * a + (c.toNat - 48)) 0

/-- The value of one digit in radix `b` (`0`-`9`, `a`-`f`, `A`-`F`),
`none` when the character is not a digit below `b`. -/
def radixDigitVal (b : Nat) (c : Char) : Option Nat :=
  let v :=
    if 48 ≤ c.toNat ∧ c.toNat ≤ 57 then some (c.toNat - 48)
    else if 97 ≤ c.toNat ∧ c.toNat ≤ 102 then some (c.toNat - 87)
    else if 65 ≤ c.toNat ∧ c.toNat ≤ 70 then some (c.toNat - 55)
    else none
  match v with
  | some d => if d < b then some d else none
  | none => none

/-- Accumulate a radix-`b` integer; fails on the first invalid digit. -/
def parseRadixGo (b : Nat) : List Char → Nat → Option Nat
  | [], acc => some acc
  | c :: cs, acc =>
    match radixDigitVal b c with
    | some v => parseRadixGo b cs (acc * b + v)
    | none => none

/-- A complete `BinaryDigits` / `OctalDigits` / `HexDigits` body after the
`0b` / `0o` / `0x` prefix: non-empty, all digits valid. -/
def parseRadixAll (b : Nat) (l : List Char) : Option ℚ :=
  if l.isEmpty then none
  else (parseRadixGo b l 0).map fun n => (n : ℚ)

/-- Recognise a `0x` / `0X` / `0o` / `0O` / `0b` / `0B` prefix. -/
def radixOfPrefix (t : List Char) : Option (Nat × List Char) :=
  match t with
  | c0 :: c1 :: r =>
    if c0 = '0' then
      if c1 = 'x' ∨ c1 = 'X' then some (16, r)
      else if c1 = 'o' ∨ c1 = 'O' then some (8, r)
      else if c1 = 'b' ∨ c1 = 'B' then some (2, r)
      else none
    else none
  | _ => none

/-- `ExponentPart?` at the end of a decimal literal: empty input means no
exponent (`0`); otherwise `e`/`E`, an optional sign, and at least one digit
which must end the input. -/
def parseExpPart (l : List Char) : Option Int :=
  match l with
  | [] => some 0
  | c :: r =>
    if c = 'e' ∨ c = 'E' then
      let (sgn, digs) :=
        match r with
        | '+' :: r2 => ((1 : Int), r2)
        | '-' :: r2 => ((-1 : Int), r2)
        | _ => ((1 : Int), r)
      if digs.isEmpty then none
      else if digs.all isDigitChar then some (sgn * (digitsVal digs : Int))
      else none
    else none

/-- `StrUnsignedDecimalLiteral`: `Infinity`, or decimal digits with an
optional fraction and exponent; the whole input must be consumed. -/
def strUnsignedDec (t : List Char) : Option ℚ :=
  if t = ['I', 'n', 'f', 'i', 'n', 'i', 't', 'y'] then none
  else
    let d1 := t.takeWhile isDigitChar
    let r1 := t.dropWhile isDigitChar
    match r1 with
    | '.' :: r2 =>
      let d2 := r2.takeWhile isDigitChar
      let r3 := r2.dropWhile isDigitChar
      if d1.isEmpty && d2.isEmpty then none
      else (parseExpPart r3).map fun ex =>
        ((digitsVal d1 : ℚ) + (digitsVal d2 : ℚ) / (10 : ℚ) ^ d2.length) * (10 : ℚ) ^ ex
    | _ =>
      if d1.isEmpty then none
      else (parseExpPart r1).map fun ex => (digitsVal d1 : ℚ) * (10 : ℚ) ^ ex

/-- `StrDecimalLiteral`: an optional sign then the unsigned literal. -/
def strDecimal (t : List Char) : Option ℚ :=
  match t with
  | [] => strUnsignedDec []
  | c :: r =>
    if c = '+' then strUnsignedDec r
    else if c = '-' then (strUnsignedDec r).map fun q => -q
    else strUnsignedDec (c :: r)

/-- JavaScript `Number(string)` restricted to finite results: `some q` when
the string converts to the finite value `q`, `none` when it converts to
`NaN` or to an `Infinity` literal (i.e. exactly when the source's
`Number.isFinite(Number(s))` test fails). -/
def jsStringToNumber (l : List Char) : Option ℚ :=
  let t := trimWS l
  if t.isEmpty then some 0
  else
    match radixOfPrefix t with
    | some (b, r) => parseRadixAll b r
    | none => strDecimal t

/-- `lastIndexOf` on a list of characters: the index of the last occurrence,
`none` standing for JavaScript's `-1`. -/
def lastIndexOf : List Char → Char → Option Nat
  | [], _ => none
  | x :: xs, c =>
    match lastIndexOf xs c with
    | some j => some (j + 1)
    | none => if x = c then some 0 else none

/-- `parseIdentityWithIndex` of `src/webapp/mls_sframe_session.js` (lines
226-238): split at the last `#`; `senderIndex` is `none` when there is no
`#` or when `Number(indexStr)` is not finite. -/
def parseIdentityWithIndex (display : List Char) : List Char × Option ℚ :=
  match lastIndexOf display '#' with
  | none => (display, none)
  | some idx =>
    let identity := display.take idx
    let indexStr := display.drop (idx + 1)
    match jsStringToNumber indexStr with
    | none => (display, none)
    | some i => (identity, some i)

/-- Truncation toward zero of a rational (ECMA-262 ToUint32 step 3). -/
def ratTrunc (q : ℚ) : Int :=
  if q < 0 then -((-q).floor) else q.floor

/-- ECMA-262 ToUint32 of a finite numeric value (`x >>> 0`). -/
def jsToUint32 (q : ℚ) : Nat :=
  (Int.emod (ratTrunc q) 4294967296).toNat

/-- JavaScript number-to-string for the values reaching `labelForSender`
from `rekeyAllPeers`: exact for integer values (sign and decimal digits);
non-integral values are rendered as `num/den`, an approximation — JavaScript
shortest-round-trip double printing is not modelled, and no theorem below
depends on this branch. -/
def jsNumToChars (q : ℚ) : List Char :=
  if q.den = 1 then
    if q.num < 0 then '-' :: natToDecChars q.num.natAbs
    else natToDecChars q.num.natAbs
  else
    natToDecChars q.num.natAbs ++ '/' :: natToDecChars q.den

/-! ## appRoom.js — rekey of subscribers, sender transform, subscriber rekey -/

/-- The receiver-side configuration produced for one subscriber by
`rekeyAllPeers` (`src/webapp/appRoom.js`, lines 1807-1817): the derived
receiver key and the audio/video KIDs passed to `createRxPeer`. -/
structure RxPeerCfg where
  rxKey : List Nat
  kidAudio : Nat
  kidVideo : Nat

/-- The per-subscriber body of the `rekeyAllPeers` RX loop
(`src/webapp/appRoom.js`, lines 1807-1817): parse the display name; when the
sender index is absent (`remoteIndex == null`) `continue` — no receiver key
is derived and no receiver context is installed (`none`); otherwise derive
the key and KIDs for the new receiver peer. -/
def rekeyRxStep (master : List Nat) (epoch room : Nat) (display : List Char) :
    Option RxPeerCfg :=
  match (parseIdentityWithIndex display).2 with
  | none => none
  | some remoteIndex =>
    some { rxKey := hkdf master ("sframe/sender/".toList ++ jsNumToChars remoteIndex) 32,
           kidAudio := computeKid epoch room (jsToUint32 remoteIndex),
           kidVideo := computeKid epoch room (jsToUint32 remoteIndex) + 1 }

/-- The media kind of an outbound encoded frame. -/
inductive MediaKind where
  | audio
  | video
deriving DecidableEq

/-- A sender context as the sender transform sees it: the two WASM encrypt
entry points; `none` models `encrypt_audio` / `encrypt_video` throwing. -/
structure TxPeer where
  encryptAudio : List Nat → Option (List Nat)
  encryptVideo : List Nat → Option (List Nat)

/-- The `transform` callback installed by `attachSenderTransform`
(`src/webapp/appRoom.js`, lines 2244-2285), as the data it enqueues for one
chunk: with no sender context (`!txPeerRefLocal || !txPeerRefLocal.peer`)
the original chunk is enqueued; on a successful encrypt the ciphertext is
enqueued; when encrypt throws, the catch handler enqueues the original
chunk.  (The SFrame header logging does not affect the enqueued data.) -/
def senderTransformStep (peerRef : Option TxPeer) (kind : MediaKind)
    (chunkData : List Nat) : List Nat :=
  match peerRef with
  | none => chunkData
  | some peer =>
    let res :=
      match kind with
      | .audio => peer.encryptAudio chunkData
      | .video => peer.encryptVideo chunkData
    match res with
    | some out => out
    | none => chunkData

/-! ## mls_sframe_session.js — join, resync, base64 -/

/-- The parsed MLS join state (`mlsJoin`'s return object). -/
structure MlsInfo where
  sender_index : Nat
  epoch : Nat
  group_id : List Char
  room_id : Nat
  roster : List (Nat × List Char)
  master_secret : List Nat
deriving DecidableEq

/-- The JSON body of a join response as `resp.json()` delivers it; the
`master_secret` field is `none` when the JSON value is not a string (the
`typeof b64 !== "string"` guard of `base64ToBytes`). -/
structure JoinRespData where
  sender_index : Nat
  epoch : Nat
  group_id : List Char
  room_id : Nat
  roster : List (Nat × List Char)
  master_secret : Option (List Char)
deriving DecidableEq

/-- The base64 value of one alphabet character. -/
def b64Val (c : Char) : Option Nat :=
  if 65 ≤ c.toNat ∧ c.toNat ≤ 90 then some (c.toNat - 65)
  else if 97 ≤ c.toNat ∧ c.toNat ≤ 122 then some (c.toNat - 71)
  else if 48 ≤ c.toNat ∧ c.toNat ≤ 57 then some (c.toNat + 4)
  else if c = '+' then some 62
  else if c = '/' then some 63
  else none

/-- Map every character to its base64 value; fail on the first invalid one. -/
def b64Vals : List Char → Option (List Nat)
  | [] => some []
  | c :: cs =>
    match b64Val c, b64Vals cs with
    | some v, some vs => some (v :: vs)
    | _, _ => none

/-- Reassemble bytes from 6-bit groups: full quads give three bytes, a final
pair or triple gives one or two bytes (WHATWG forgiving-base64 step 10). -/
def b64Bytes : List Nat → List Nat
  | v1 :: v2 :: v3 :: v4 :: rest =>
    (v1 * 4 + v2 / 16) :: ((v2 % 16) * 16 + v3 / 4) :: ((v3 % 4) * 64 + v4) ::
      b64Bytes rest
  | [v1, v2] => [v1 * 4 + v2 / 16]
  | [v1, v2, v3] => [v1 * 4 + v2 / 16, (v2 % 16) * 16 + v3 / 4]
  | _ => []

/-- ASCII whitespace, removed by forgiving-base64 decode. -/
def isB64White (c : Char) : Bool :=
  c.toNat = 9 || c.toNat = 10 || c.toNat = 12 || c.toNat = 13 || c.toNat = 32

/-- `atob`: WHATWG forgiving-base64 decode.  Whitespace is removed; if the
length is a multiple of four, up to two trailing `=` are removed; a
remaining length of 1 mod 4, or any character outside the alphabet, throws
(`none`). -/
def atob (s : List Char) : Option (List Nat) :=
  let t := s.filter fun c => !isB64White c
  let t2 :=
    if t.length % 4 = 0 then
      if t.drop (t.length - 2) = ['=', '='] then t.dropLast.dropLast
      else if t.drop (t.length - 1) = ['='] then t.dropLast
      else t
    else t
  if t2.length % 4 = 1 then none
  else (b64Vals t2).map b64Bytes

/-- `base64ToBytes` of `src/webapp/mls_sframe_session.js` (lines 69-77):
throws when the input is not a string, then decodes with `atob` (which
throws on malformed base64); otherwise returns the decoded bytes. -/
def base64ToBytes (v : Option (List Char)) : Except (List Char) (List Nat) :=
  match v with
  | none => .error "base64ToBytes: input non è una stringa".toList
  | some s =>
    match atob s with
    | none => .error "InvalidCharacterError".toList
    | some bytes => .ok bytes

/-- Whether a `fetch` response is `ok`: status in the 2xx range. -/
def respOk (status : Nat) : Bool :=
  200 ≤ status && status ≤ 299

/-- `mlsJoin` of `src/webapp/mls_sframe_session.js` (lines 89-115), as a
function of the HTTP response it receives: a non-`ok` status throws
`Join MLS failed`; otherwise the JSON fields are returned with the
base64-decoded `master_secret` (whose decoding itself can throw). -/
def mlsJoin (status : Nat) (data : JoinRespData) : Except (List Char) MlsInfo :=
  if !respOk status then
    .error ("Join MLS failed: HTTP ".toList ++ natToDecChars status)
  else
    match base64ToBytes data.master_secret with
    | .error e => .error e
    | .ok masterBytes =>
      .ok { sender_index := data.sender_index, epoch := data.epoch,
            group_id := data.group_id, room_id := data.room_id,
            roster := data.roster, master_secret := masterBytes }

/-- `mlsResync` of `src/webapp/mls_sframe_session.js` (lines 139-156), as a
function of the info the inner `mlsJoin` call fetches: with no cached info
it behaves as a join (`changed: true`); with a cached info, `changed: true`
and the fresh info when the epoch differs, otherwise `changed: false` and
the cached info unchanged. -/
def mlsResync (fetched : MlsInfo) (currentInfo : Option MlsInfo) :
    Bool × MlsInfo :=
  match currentInfo with
  | none => (true, fetched)
  | some cur =>
    if fetched.epoch ≠ cur.epoch then (true, fetched)
    else (false, cur)

/-! ## Helper lemmas -/

theorem wordBytes_length (x : Nat) : (wordBytes x).length = 4 := rfl

theorem stateBytes_length (s : ShaState) : (stateBytes s).length = 32 := by
  simp [stateBytes, wordBytes]

theorem sha256_length (m : List Nat) : (sha256 m).length = 32 :=
  stateBytes_length _

theorem hmacSha256_length (key data : List Nat) :
    (hmacSha256 key data).length = 32 :=
  sha256_length _

theorem hkdfLoop_length (prk info : List Nat) :
    ∀ (fuel : Nat) (tPrev : List Nat) (i : Nat),
      (hkdfLoop prk info tPrev i fuel).length = 32 * fuel := by
  intro fuel
  induction fuel with
  | zero => intro tPrev i; rfl
  | succ n ih =>
    intro tPrev i
    simp only [hkdfLoop, List.length_append, hmacSha256_length, ih]
    omega

theorem hkdf_length (ikm : List Nat) (label : List Char) (L : Nat)
    (h : L < 4294967296) : (hkdf ikm label L).length = L := by
  simp only [hkdf, Nat.mod_eq_of_lt h, List.length_take, hkdfLoop_length]
  omega

theorem hkdfT_succ (prk info : List Nat) (i : Nat) :
    hkdfT prk info (i + 1) =
      hmacSha256 prk (hkdfT prk info i ++ info ++ [i + 1]) := rfl

/-- The source's Expand loop produces exactly the RFC's block sequence
`T(i) ‖ … ‖ T(i + fuel - 1)` as long as every block index stays below 256
(the RFC's bound; the loop writes the index into a byte). -/
theorem hkdfLoop_eq_blocks (prk info : List Nat) :
    ∀ (fuel i : Nat), 1 ≤ i → i + fuel ≤ 256 →
      hkdfLoop prk info (hkdfT prk info (i - 1)) i fuel =
        (List.range fuel).flatMap fun j => hkdfT prk info (i + j) := by
  intro fuel
  induction fuel with
  | zero => intro i _ _; rfl
  | succ n ih =>
    intro i h1 h2
    obtain ⟨i', rfl⟩ : ∃ j, i = j + 1 := ⟨i - 1, by omega⟩
    have hmod : (i' + 1) % 256 = i' + 1 := Nat.mod_eq_of_lt (by omega)
    simp only [hkdfLoop, Nat.add_sub_cancel, hmod]
    rw [show hmacSha256 prk (hkdfT prk info i' ++ info ++ [i' + 1]) =
          hkdfT prk info (i' + 1) from rfl]
    have ihv := ih (i' + 1 + 1) (by omega) (by omega)
    simp only [Nat.add_sub_cancel] at ihv
    rw [ihv, List.range_succ_eq_map]
    simp only [List.flatMap_cons, List.flatMap_map, Nat.add_zero]
    have harg : (fun j => hkdfT prk info (i' + 1 + 1 + j)) =
        fun j => hkdfT prk info (i' + 1 + Nat.succ j) := by
      funext j
      congr 1
      omega
    rw [harg]

/-! ## Claim theorems -/

/-- C10: `computeKid` reduces each argument mod `2 ^ 32` before combining, so
adding `2 ^ 32` to the epoch, the room id, or the leaf index leaves the KID
unchanged. -/
theorem computeKid_mod_2pow32 (e r s : Nat) :
    computeKid (e + 2 ^ 32) r s = computeKid e r s ∧
    computeKid e (r + 2 ^ 32) s = computeKid e r s ∧
    computeKid e r (s + 2 ^ 32) = computeKid e r s := by
  simp only [computeKid]
  norm_num [Nat.add_mod_right]

/-- C3 (counterexample): the claim's formula `epoch·10⁹ + room·10⁴ + leaf·10`
fails at `epoch = 2 ^ 32`, where the source's `>>> 0` coercion wraps the
epoch to 0. -/
theorem computeKid_truncates_large_epoch :
    ¬ computeKid (2 ^ 32) 0 0 = 2 ^ 32 * 1000000000 + 0 * 10000 + 0 * 10 := by
  decide

/-- C3 (amended): for arguments below `2 ^ 32` (the range on which `>>> 0`
is the identity) whose combined KID value stays below `2 ^ 53` — the range
on which the source's double-precision arithmetic is exact, so the exact
model speaks for the program — the KID is
`epoch·10⁹ + room·10⁴ + leaf·10`, and the video KID of the same sender is
that value plus 1. -/
theorem computeKid_formula_of_lt (e r s : Nat)
    (he : e < 4294967296) (hr : r < 4294967296) (hs : s < 4294967296)
    (_hexact : e * 1000000000 + r * 10000 + s * 10 + 1 < 9007199254740992) :
    computeKid e r s = e * 1000000000 + r * 10000 + s * 10 ∧
    kidVideoOf e r s = computeKid e r s + 1 := by
  refine ⟨?_, rfl⟩
  simp only [computeKid]
  rw [Nat.mod_eq_of_lt he, Nat.mod_eq_of_lt hr, Nat.mod_eq_of_lt hs]

/-- Witness for C3 at the spec's own scenario S1: epoch 7, room 1234,
leaf 3 gives KID 7 012 340 030, video KID one more. -/
theorem computeKid_formula_witness :
    computeKid 7 1234 3 = 7 * 1000000000 + 1234 * 10000 + 3 * 10 ∧
    kidVideoOf 7 1234 3 = computeKid 7 1234 3 + 1 :=
  computeKid_formula_of_lt 7 1234 3 (by norm_num) (by norm_num) (by norm_num)
    (by norm_num)

/-- C4 (counterexample): the KID encoding is not injective over all unsigned
integers: room 100000 at epoch 0 collides with room 0 at epoch 1. -/
theorem computeKid_not_injective_unbounded :
    computeKid 0 100000 0 + 0 = computeKid 1 0 0 + 0 ∧
    ¬ ((0, 100000, 0, 0) = ((1 : Nat), (0 : Nat), (0 : Nat), (0 : Nat))) := by
  constructor
  · decide
  · decide

/-- C4 (amended): the encoding is injective on the digit-block ranges the
layout provides, inside the double-exact range: room below `10⁵`, leaf
below `10³`, media bit in {0, 1}, and each tuple's KID value (media bit
included) below `2 ^ 53` — on that range the source's double arithmetic is
exact, so the exact model speaks for the program (the bound also forces
epoch below `2 ^ 32`, keeping `>>> 0` the identity). -/
theorem computeKid_injective_in_range
    (e₁ r₁ s₁ m₁ e₂ r₂ s₂ m₂ : Nat)
    (hr₁ : r₁ < 100000) (hs₁ : s₁ < 1000) (hm₁ : m₁ ≤ 1)
    (hr₂ : r₂ < 100000) (hs₂ : s₂ < 1000) (hm₂ : m₂ ≤ 1)
    (hx₁ : e₁ * 1000000000 + r₁ * 10000 + s₁ * 10 + m₁ < 9007199254740992)
    (hx₂ : e₂ * 1000000000 + r₂ * 10000 + s₂ * 10 + m₂ < 9007199254740992)
    (h : computeKid e₁ r₁ s₁ + m₁ = computeKid e₂ r₂ s₂ + m₂) :
    e₁ = e₂ ∧ r₁ = r₂ ∧ s₁ = s₂ ∧ m₁ = m₂ := by
  simp only [computeKid] at h
  rw [Nat.mod_eq_of_lt (by omega : e₁ < 4294967296),
    Nat.mod_eq_of_lt (by omega : r₁ < 4294967296),
    Nat.mod_eq_of_lt (by omega : s₁ < 4294967296),
    Nat.mod_eq_of_lt (by omega : e₂ < 4294967296),
    Nat.mod_eq_of_lt (by omega : r₂ < 4294967296),
    Nat.mod_eq_of_lt (by omega : s₂ < 4294967296)] at h
  omega

/-- Witness for C4 at a concrete in-range tuple. -/
theorem computeKid_injective_witness :
    7 = 7 ∧ 1234 = 1234 ∧ 3 = 3 ∧ 1 = 1 :=
  computeKid_injective_in_range 7 1234 3 1 7 1234 3 1
    (by norm_num) (by norm_num) (by norm_num)
    (by norm_num) (by norm_num) (by norm_num)
    (by norm_num) (by norm_num) rfl

/-- C5: the sender transform of `attachSenderTransform` enqueues the
original cleartext chunk both when no sender context is installed and when
the encrypt call fails — the frame IS forwarded unencrypted, contradicting
the claim that it is held or dropped. -/
theorem senderTransform_forwards_cleartext :
    senderTransformStep none MediaKind.audio [1, 2, 3] = [1, 2, 3] ∧
    senderTransformStep
      (some { encryptAudio := fun _ => none, encryptVideo := fun _ => none })
      MediaKind.audio [1, 2, 3] = [1, 2, 3] :=
  ⟨rfl, rfl⟩

/-- C7: `mlsResync` reports `changed = true` with the freshly fetched info
exactly when no info was cached or the fetched epoch differs; on an equal
epoch (a roster-only change included) it reports `changed = false` with the
cached info unchanged. -/
theorem mlsResync_epoch_gate (fetched : MlsInfo) (cur : Option MlsInfo) :
    (mlsResync fetched cur = (true, fetched) ↔
      cur = none ∨ ∃ c, cur = some c ∧ fetched.epoch ≠ c.epoch) ∧
    (∀ c, cur = some c → fetched.epoch = c.epoch →
      mlsResync fetched cur = (false, c)) := by
  cases cur with
  | none => simp [mlsResync]
  | some c =>
    by_cases h : fetched.epoch = c.epoch
    · simp [mlsResync, h]
    · simp [mlsResync, h]

/-- Witness for C7: cached epoch 5, fetched epoch 5 — no rekey, cached info
kept. -/
theorem mlsResync_epoch_gate_witness :
    mlsResync { sender_index := 1, epoch := 5, group_id := ['g'], room_id := 9,
                roster := [], master_secret := [1] }
      (some { sender_index := 0, epoch := 5, group_id := ['g'], room_id := 9,
              roster := [], master_secret := [2] }) =
      (false, { sender_index := 0, epoch := 5, group_id := ['g'], room_id := 9,
                roster := [], master_secret := [2] }) :=
  (mlsResync_epoch_gate _ _).2 _ rfl rfl

/-- C1: the source's `hkdf` is HKDF-SHA-256 per RFC 5869 with the constant
all-zero 32-byte Extract salt and the UTF-8 encoding of the label as the
Expand info, and its output is exactly `L` bytes — for every requested
length in the range on which the RFC defines HKDF (`L ≤ 255 · 32`; the
source's `length >>> 0` coercion also requires `L < 2 ^ 32`). -/
theorem hkdf_matches_rfc5869 (ikm : List Nat) (label : List Char) (L : Nat)
    (h32 : L < 4294967296) (h255 : L ≤ 8160) :
    hkdf ikm label L =
      hkdfRfc5869 (List.replicate 32 0) ikm (utf8Encode label) L ∧
    (hkdf ikm label L).length = L := by
  refine ⟨?_, hkdf_length ikm label L h32⟩
  simp only [hkdf, hkdfRfc5869, hkdfExpandRfc, Nat.mod_eq_of_lt h32]
  congr 1
  have h := hkdfLoop_eq_blocks (hmacSha256 (List.replicate 32 0) ikm)
    (utf8Encode label) ((L + 31) / 32) 1 (le_refl 1) (by omega)
  rw [show hkdfT (hmacSha256 (List.replicate 32 0) ikm) (utf8Encode label)
        (1 - 1) = [] from rfl] at h
  rw [h]
  have harg : (fun j => hkdfT (hmacSha256 (List.replicate 32 0) ikm)
        (utf8Encode label) (1 + j)) =
      fun j => hkdfT (hmacSha256 (List.replicate 32 0) ikm)
        (utf8Encode label) (j + 1) := by
    funext j
    rw [Nat.add_comm]
  rw [harg]

/-- Witness for C1 at a concrete IKM, label and length. -/
theorem hkdf_matches_rfc5869_witness :
    hkdf [11, 11, 11] ['k', 'e', 'y'] 32 =
      hkdfRfc5869 (List.replicate 32 0) [11, 11, 11]
        (utf8Encode ['k', 'e', 'y']) 32 ∧
    (hkdf [11, 11, 11] ['k', 'e', 'y'] 32).length = 32 :=
  hkdf_matches_rfc5869 [11, 11, 11] ['k', 'e', 'y'] 32 (by norm_num) (by norm_num)

/-- C2: `deriveTxKey` and `deriveRxKey` return the same value for the same
master secret and sender index, namely
`hkdf(master, "sframe/sender/" + decimal(i), 32)`, and that value is 32
bytes long. -/
theorem deriveTxKey_eq_deriveRxKey (master : List Nat) (i : Nat) :
    deriveTxKey master i = deriveRxKey master i ∧
    deriveTxKey master i =
      hkdf master ("sframe/sender/".toList ++ natToDecChars i) 32 ∧
    (deriveTxKey master i).length = 32 :=
  ⟨rfl, rfl, hkdf_length master (labelForSender i) 32 (by norm_num)⟩

/-! ## Parsing lemmas (identity round trip) -/

theorem char_toNat_ne {c d : Char} (h : c.toNat ≠ d.toNat) : ¬ c = d :=
  fun e => h (congrArg Char.toNat e)

theorem lastIndexOf_eq_none {l : List Char} (h : '#' ∉ l) :
    lastIndexOf l '#' = none := by
  induction l with
  | nil => rfl
  | cons x xs ih =>
    simp only [List.mem_cons, not_or] at h
    simp only [lastIndexOf, ih h.2]
    exact if_neg fun e => h.1 e.symm

theorem lastIndexOf_append_hash {l₁ l₂ : List Char} (h : '#' ∉ l₂) :
    lastIndexOf (l₁ ++ '#' :: l₂) '#' = some l₁.length := by
  induction l₁ with
  | nil =>
    simp [lastIndexOf, lastIndexOf_eq_none h]
  | cons x xs ih =>
    have hstep : lastIndexOf ((x :: xs) ++ '#' :: l₂) '#' =
        match lastIndexOf (xs ++ '#' :: l₂) '#' with
        | some j => some (j + 1)
        | none => if x = '#' then some 0 else none := rfl
    rw [hstep, ih]
    rfl

theorem decDigitChar_toNat {d : Nat} (h : d < 10) :
    (decDigitChar d).toNat = 48 + d := by
  interval_cases d <;> rfl

theorem natToDecChars_mem_range {n : Nat} :
    ∀ c ∈ natToDecChars n, 48 ≤ c.toNat ∧ c.toNat ≤ 57 := by
  intro c hc
  unfold natToDecChars at hc
  by_cases h : n = 0
  · rw [if_pos h] at hc
    rw [List.mem_singleton] at hc
    subst hc
    decide
  · rw [if_neg h, List.mem_reverse] at hc
    rcases List.mem_map.mp hc with ⟨d, hd, rfl⟩
    have hlt : d < 10 := Nat.digits_lt_base (by norm_num) hd
    rw [decDigitChar_toNat hlt]
    omega

theorem hash_not_mem_natToDecChars (n : Nat) : '#' ∉ natToDecChars n := by
  intro hmem
  have hr := natToDecChars_mem_range _ hmem
  have h35 : ('#' : Char).toNat = 35 := rfl
  omega

theorem natToDecChars_ne_nil (n : Nat) : natToDecChars n ≠ [] := by
  unfold natToDecChars
  by_cases h : n = 0
  · simp [h]
  · rw [if_neg h]
    simp [Nat.digits_ne_nil_iff_ne_zero.mpr h]

theorem digitsVal_append_digit (l : List Char) (c : Char) :
    digitsVal (l ++ [c]) = 10 * digitsVal l + (c.toNat - 48) := by
  simp [digitsVal, List.foldl_append]

theorem digitsVal_of_digits :
    ∀ ds : List Nat, (∀ d ∈ ds, d < 10) →
      digitsVal ((ds.map decDigitChar).reverse) = Nat.ofDigits 10 ds := by
  intro ds
  induction ds with
  | nil => intro _; rfl
  | cons d ds ih =>
    intro h
    have hd : d < 10 := h d (List.mem_cons_self _ _)
    have hds : ∀ x ∈ ds, x < 10 := fun x hx => h x (List.mem_cons_of_mem _ hx)
    simp only [List.map_cons, List.reverse_cons, digitsVal_append_digit, ih hds,
      decDigitChar_toNat hd, Nat.ofDigits_cons]
    omega

theorem digitsVal_natToDecChars (n : Nat) : digitsVal (natToDecChars n) = n := by
  unfold natToDecChars
  by_cases h : n = 0
  · subst h
    rfl
  · rw [if_neg h,
      digitsVal_of_digits _ (fun d hd => Nat.digits_lt_base (by norm_num) hd)]
    exact Nat.ofDigits_digits 10 n

theorem not_white_of_digit_range {c : Char} (h1 : 48 ≤ c.toNat)
    (h2 : c.toNat ≤ 57) : isStrWhite c = false := by
  simp only [isStrWhite, Bool.or_eq_false_iff, Bool.and_eq_false_iff,
    decide_eq_false_iff_not]
  omega

theorem isDigitChar_of_range {c : Char} (h1 : 48 ≤ c.toNat)
    (h2 : c.toNat ≤ 57) : isDigitChar c = true := by
  simp only [isDigitChar, Bool.and_eq_true, decide_eq_true_eq]
  omega

theorem dropWhile_white_eq_self {l : List Char}
    (h : ∀ c ∈ l, isStrWhite c = false) : l.dropWhile isStrWhite = l := by
  cases l with
  | nil => rfl
  | cons x xs =>
    rw [List.dropWhile_cons, if_neg]
    simp [h x (List.mem_cons_self _ _)]

theorem trimWS_eq_self {l : List Char}
    (h : ∀ c ∈ l, isStrWhite c = false) : trimWS l = l := by
  unfold trimWS
  rw [dropWhile_white_eq_self h,
    dropWhile_white_eq_self fun c hc => h c (List.mem_reverse.mp hc),
    List.reverse_reverse]

theorem takeWhile_digits_of_all {l : List Char}
    (h : ∀ c ∈ l, isDigitChar c = true) :
    l.takeWhile isDigitChar = l ∧ l.dropWhile isDigitChar = [] := by
  induction l with
  | nil => exact ⟨rfl, rfl⟩
  | cons x xs ih =>
    have hx := h x (List.mem_cons_self _ _)
    have ihs := ih fun c hc => h c (List.mem_cons_of_mem _ hc)
    rw [List.takeWhile_cons, List.dropWhile_cons]
    simp [hx, ihs.1, ihs.2]

theorem radixOfPrefix_digits {t : List Char}
    (h : ∀ c ∈ t, 48 ≤ c.toNat ∧ c.toNat ≤ 57) :
    radixOfPrefix t = none := by
  match t with
  | [] => rfl
  | [c] => rfl
  | c0 :: c1 :: r =>
    have h1 := h c1 (List.mem_cons_of_mem _ (List.mem_cons_self _ _))
    have hx : ¬(c1 = 'x' ∨ c1 = 'X') := by
      rintro (rfl | rfl) <;> revert h1 <;> decide
    have ho : ¬(c1 = 'o' ∨ c1 = 'O') := by
      rintro (rfl | rfl) <;> revert h1 <;> decide
    have hb : ¬(c1 = 'b' ∨ c1 = 'B') := by
      rintro (rfl | rfl) <;> revert h1 <;> decide
    by_cases h0 : c0 = '0'
    · simp [radixOfPrefix, h0, hx, ho, hb]
    · simp [radixOfPrefix, h0]

theorem strUnsignedDec_natToDecChars (n : Nat) :
    strUnsignedDec (natToDecChars n) = some (n : ℚ) := by
  have hrange := @natToDecChars_mem_range n
  have hdig : ∀ c ∈ natToDecChars n, isDigitChar c = true := fun c hc =>
    isDigitChar_of_range (hrange c hc).1 (hrange c hc).2
  have hInf : ¬(natToDecChars n = ['I', 'n', 'f', 'i', 'n', 'i', 't', 'y']) := by
    intro he
    have hi := hrange 'I' (by rw [he]; exact List.mem_cons_self _ _)
    revert hi
    decide
  have hne : (natToDecChars n).isEmpty = false := by
    cases hl : natToDecChars n with
    | nil => exact absurd hl (natToDecChars_ne_nil n)
    | cons c cs => rfl
  unfold strUnsignedDec
  rw [if_neg hInf, (takeWhile_digits_of_all hdig).1, (takeWhile_digits_of_all hdig).2]
  show (if (natToDecChars n).isEmpty then none
    else (parseExpPart []).map fun ex => (digitsVal (natToDecChars n) : ℚ) * (10 : ℚ) ^ ex) =
    some (n : ℚ)
  rw [hne]
  show some ((digitsVal (natToDecChars n) : ℚ) * (10 : ℚ) ^ (0 : ℤ)) = some (n : ℚ)
  rw [zpow_zero, mul_one, digitsVal_natToDecChars]

theorem strDecimal_digit_head {c : Char} {cs : List Char} (h1 : 48 ≤ c.toNat)
    (h2 : c.toNat ≤ 57) : strDecimal (c :: cs) = strUnsignedDec (c :: cs) := by
  have hp : ¬ c = '+' := fun e => by subst e; revert h1; decide
  have hm : ¬ c = '-' := fun e => by subst e; revert h1; decide
  simp [strDecimal, hp, hm]

theorem jsStringToNumber_natToDecChars (n : Nat) :
    jsStringToNumber (natToDecChars n) = some (n : ℚ) := by
  have hrange := @natToDecChars_mem_range n
  have hne : (natToDecChars n).isEmpty = false := by
    cases hl : natToDecChars n with
    | nil => exact absurd hl (natToDecChars_ne_nil n)
    | cons c cs => rfl
  simp only [jsStringToNumber,
    trimWS_eq_self fun c hc =>
      not_white_of_digit_range (hrange c hc).1 (hrange c hc).2,
    hne, Bool.false_eq_true, if_false]
  show (match radixOfPrefix (natToDecChars n) with
    | some (b, r) => parseRadixAll b r
    | none => strDecimal (natToDecChars n)) = some (n : ℚ)
  rw [radixOfPrefix_digits hrange]
  show strDecimal (natToDecChars n) = some (n : ℚ)
  cases hl : natToDecChars n with
  | nil => exact absurd hl (natToDecChars_ne_nil n)
  | cons c cs =>
    have hc := hrange c (by rw [hl]; exact List.mem_cons_self _ _)
    rw [strDecimal_digit_head hc.1 hc.2, ← hl, strUnsignedDec_natToDecChars]

/-- C9: round trip of the identity suffix convention — parsing
`attachIndexToIdentity(name, i)` recovers the original name and the sender
index `i`, even when the name itself contains `#` characters (the parser
splits at the last `#`). -/
theorem parse_attach_roundtrip (name : List Char) (i : Nat) :
    parseIdentityWithIndex (attachIndexToIdentity name i) =
      (name, some (i : ℚ)) := by
  have hlast : lastIndexOf (name ++ '#' :: natToDecChars i) '#' =
      some name.length :=
    lastIndexOf_append_hash (hash_not_mem_natToDecChars i)
  have hdrop : (name ++ '#' :: natToDecChars i).drop (name.length + 1) =
      natToDecChars i := by
    rw [show name ++ '#' :: natToDecChars i =
          (name ++ ['#']) ++ natToDecChars i by simp,
      show name.length + 1 = (name ++ ['#']).length by simp]
    exact List.drop_left _ _
  unfold attachIndexToIdentity parseIdentityWithIndex
  rw [hlast]
  show (match jsStringToNumber
      ((name ++ '#' :: natToDecChars i).drop (name.length + 1)) with
    | none => (name ++ '#' :: natToDecChars i, (none : Option ℚ))
    | some j => ((name ++ '#' :: natToDecChars i).take name.length, some j)) =
    (name, some (i : ℚ))
  rw [hdrop, jsStringToNumber_natToDecChars]
  show ((name ++ '#' :: natToDecChars i).take name.length, some (i : ℚ)) =
    (name, some (i : ℚ))
  rw [List.take_left]

/-- C6: a display name without `#`, or whose suffix after the last `#` is
not a finite number, parses to an absent `senderIndex`, and the RX loop of
`rekeyAllPeers` then skips that subscriber: no receiver key is derived and
no receiver context installed. -/
theorem parse_absent_skips_rekey (display : List Char) (master : List Nat)
    (epoch room : Nat)
    (h : '#' ∉ display ∨ ∃ idx, lastIndexOf display '#' = some idx ∧
      jsStringToNumber (display.drop (idx + 1)) = none) :
    (parseIdentityWithIndex display).2 = none ∧
    rekeyRxStep master epoch room display = none := by
  have hp : (parseIdentityWithIndex display).2 = none := by
    rcases h with h | ⟨idx, hidx, hnum⟩
    · unfold parseIdentityWithIndex
      rw [lastIndexOf_eq_none h]
    · unfold parseIdentityWithIndex
      rw [hidx]
      show (match jsStringToNumber (display.drop (idx + 1)) with
        | none => (display, (none : Option ℚ))
        | some i => (display.take idx, some i)).2 = none
      rw [hnum]
  refine ⟨hp, ?_⟩
  unfold rekeyRxStep
  rw [hp]

/-- Witness for C6: the display `alice` has no `#`; nothing is derived. -/
theorem parse_absent_skips_rekey_witness :
    (parseIdentityWithIndex "alice".toList).2 = none ∧
    rekeyRxStep [0] 7 1234 "alice".toList = none :=
  parse_absent_skips_rekey "alice".toList [0] 7 1234 (Or.inl (by decide))

/-- C8 (counterexample): a 2xx response whose `master_secret` body field is
not a string makes `mlsJoin` throw, refuting "throws if and only if the
status is not 2xx". -/
theorem mlsJoin_throws_on_bad_body :
    respOk 200 = true ∧
    (mlsJoin 200 ⟨1, 2, ['g'], 3, [], none⟩).isOk = false :=
  ⟨rfl, rfl⟩

/-- C8 (amended): `mlsJoin` succeeds exactly when the status is 2xx AND the
body's `master_secret` decodes; a non-2xx status throws `Join MLS failed`;
on a 2xx status with a well-formed `master_secret` it returns the parsed
fields with the decoded bytes. -/
theorem mlsJoin_status_behaviour (status : Nat) (data : JoinRespData) :
    ((mlsJoin status data).isOk = true ↔
      respOk status = true ∧ (base64ToBytes data.master_secret).isOk = true) ∧
    (respOk status = false → mlsJoin status data =
      .error ("Join MLS failed: HTTP ".toList ++ natToDecChars status)) ∧
    (respOk status = true → ∀ bytes,
      base64ToBytes data.master_secret = .ok bytes →
      mlsJoin status data = .ok ⟨data.sender_index, data.epoch, data.group_id,
        data.room_id, data.roster, bytes⟩) := by
  by_cases hok : respOk status = true
  · refine ⟨?_, ?_, ?_⟩
    · cases hb : base64ToBytes data.master_secret with
      | error e =>
        simp [mlsJoin, hok, hb]
        rfl
      | ok bytes =>
        simp [mlsJoin, hok, hb]
        rfl
    · intro hcontra
      rw [hok] at hcontra
      exact absurd hcontra (by decide)
    · intro _ bytes hb
      simp [mlsJoin, hok, hb]
  · have hok' : respOk status = false := by
      cases hv : respOk status with
      | true => exact absurd hv hok
      | false => rfl
    refine ⟨?_, ?_, ?_⟩
    · simp [mlsJoin, hok']
      rfl
    · intro _
      simp [mlsJoin, hok']
    · intro hcontra
      exact absurd hcontra hok

/-- Witness for C8: a 200 response whose `master_secret` is the base64
string `AAAA` succeeds and carries the decoded bytes `[0, 0, 0]`. -/
theorem mlsJoin_status_behaviour_witness :
    mlsJoin 200 ⟨1, 2, ['g'], 3, [], some ['A', 'A', 'A', 'A']⟩ =
      .ok ⟨1, 2, ['g'], 3, [], [0, 0, 0]⟩ :=
  (mlsJoin_status_behaviour 200
    ⟨1, 2, ['g'], 3, [], some ['A', 'A', 'A', 'A']⟩).2.2 rfl [0, 0, 0] rfl

/-! ## Embedding validation against published test vectors -/

set_option maxRecDepth 10000 in
/-- FIPS 180-4 test vector: SHA-256 of the empty message. -/
theorem sha256_empty_vector :
    sha256 [] =
      [227, 176, 196, 66, 152, 252, 28, 20, 154, 251, 244, 200, 153, 111,
       185, 36, 39, 174, 65, 228, 100, 155, 147, 76, 164, 149, 153, 27,
       120, 82, 184, 85] := by
  decide

set_option maxRecDepth 10000 in
/-- FIPS 180-4 test vector: SHA-256 of `abc`. -/
theorem sha256_abc_vector :
    sha256 [97, 98, 99] =
      [186, 120, 22, 191, 143, 1, 207, 234, 65, 65, 64, 222, 93, 174, 34,
       35, 176, 3, 97, 163, 150, 23, 122, 156, 180, 16, 255, 97, 242, 0,
       21, 173] := by
  decide

set_option maxRecDepth 40000 in
/-- RFC 4231 test case 1: HMAC-SHA-256 with key `0x0b × 20` and data
`Hi There`. -/
theorem hmacSha256_rfc4231_tc1 :
    hmacSha256 (List.replicate 20 11) [72, 105, 32, 84, 104, 101, 114, 101] =
      [176, 52, 76, 97, 216, 219, 56, 83, 92, 168, 175, 206, 175, 11, 241,
       43, 136, 29, 194, 0, 201, 131, 61, 167, 38, 233, 55, 108, 46, 50,
       207, 247] := by
  decide
